import Mathlib

/-!
Verification of the time-control core of the pollytest repository.

This file embeds, as executable Lean definitions, the duration parser
(parseDuration), the virtual clock controller (TimeController) and the
response timestamp virtualizer (transformResponseTimestamps together with
transformObjectTimestamps) from the source, and proves the specified
properties about them.

Modelling conventions:
- JavaScript numbers are modelled as exact integers (Int / Nat) where the
  source performs integer-millisecond arithmetic, and as rationals where a
  caller-supplied number flows through unchanged.  All quantities in the
  claims are small enough that no IEEE-754 rounding occurs in the source.
- A thrown JavaScript exception is modelled as an Except error value.
- The fake-timers clock (an external dependency of the source) is modelled
  from the specification text, see the definitions marked accordingly.
-/

/-- Decidable equality for Except values, used to evaluate the embedded
functions on concrete inputs. -/
instance {ε α : Type} [DecidableEq ε] [DecidableEq α] : DecidableEq (Except ε α) := fun a b =>
  match a, b with
  | .ok x, .ok y =>
    if h : x = y then .isTrue (by rw [h]) else .isFalse (by intro hc; cases hc; exact h rfl)
  | .error x, .error y =>
    if h : x = y then .isTrue (by rw [h]) else .isFalse (by intro hc; cases hc; exact h rfl)
  | .ok _, .error _ => .isFalse (by intro hc; cases hc)
  | .error _, .ok _ => .isFalse (by intro hc; cases hc)

/-- Character class of the JavaScript regex token w: ASCII letters, digits
and underscore. -/
def isWordChar (c : Char) : Bool :=
  c.isAlpha || c.isDigit || c == '_'

/-- Characters matched by the JavaScript regex token s: the ECMAScript
WhiteSpace and LineTerminator sets.  Tab, line feed, vertical tab, form
feed, carriage return, space, no-break space, Ogham space mark, the
typographic spaces U+2000 to U+200A, line separator, paragraph separator,
narrow no-break space, medium mathematical space, ideographic space and
zero width no-break space. -/
def jsSpaceChars : List Char :=
  ['\t', '\n', '\x0b', '\x0c', '\r', ' ', '\u00A0', '\u1680',
   '\u2000', '\u2001', '\u2002', '\u2003', '\u2004', '\u2005', '\u2006',
   '\u2007', '\u2008', '\u2009', '\u200A', '\u2028', '\u2029', '\u202F',
   '\u205F', '\u3000', '\uFEFF']

/-- Character class of the JavaScript regex token s. -/
def isJsSpace (c : Char) : Bool :=
  jsSpaceChars.contains c

/-- Value of a digit string in base 10, as computed by parseInt(value, 10)
on an all-digit string (exact integer arithmetic). -/
def natOfDigits (ds : List Char) : Nat :=
  ds.foldl (fun acc c => 10 * acc + (c.toNat - 48)) 0

/-- One backtracking attempt of the duration regex at a fixed split point:
given the digit capture and the characters after it, consume the maximal
whitespace run and require the (nonempty) remainder to consist of word
characters reaching the end anchor.  Returns (value capture, unit capture). -/
def durTryAt (digits rest : List Char) : Option (List Char × List Char) :=
  let tail := rest.dropWhile isJsSpace
  if tail ≠ [] ∧ tail.all isWordChar then some (digits, tail) else none

/-- Backtracking over the length of the leading digit capture, longest
split first, exactly as the JavaScript regex engine explores the pattern. -/
def durBacktrack (cs : List Char) : Nat → Option (List Char × List Char)
  | 0 => none
  | k + 1 => (durTryAt (cs.take (k + 1)) (cs.drop (k + 1))) <|> durBacktrack cs k

/-- Embedding of duration.match of the anchored regex with captures
(digits)(word characters) separated by optional whitespace, used by
parseDuration.  Returns the two captured groups on success. -/
def matchDuration (cs : List Char) : Option (List Char × List Char) :=
  durBacktrack cs (cs.takeWhile Char.isDigit).length

/-- ASCII lowercasing of one character.  The source lowercases with
String.prototype.toLowerCase; the unit capture consists of word characters
only, on which Unicode lowercasing and ASCII lowercasing agree. -/
def lowerAscii (c : Char) : Char :=
  if 65 ≤ c.toNat ∧ c.toNat ≤ 90 then Char.ofNat (c.toNat + 32) else c

/-- Unit multiplier table of parseDuration, looked up on the lowercased
unit capture; the source treats an absent entry (undefined, hence falsy)
as unknown. -/
def unitMultiplier (u : String) : Option Nat :=
  match String.mk (u.data.map lowerAscii) with
  | "ms" | "millisecond" | "milliseconds" => some 1
  | "s" | "sec" | "second" | "seconds" => some 1000
  | "m" | "min" | "minute" | "minutes" => some 60000
  | "h" | "hr" | "hour" | "hours" => some 3600000
  | "d" | "day" | "days" => some 86400000
  | _ => none

/-- Input of parseDuration: a JavaScript number (modelled as an exact
rational) or a string. -/
inductive DurationInput : Type where
  | num (q : ℚ)
  | str (s : String)
deriving DecidableEq, Repr

/-- Errors thrown by parseDuration. -/
inductive DurationError : Type where
  | formatError (input : String)
  | unknownUnit (unit : String)
deriving DecidableEq, Repr

/-- Exact text of the error messages thrown by parseDuration. -/
def durationErrorMessage : DurationError → String
  | .formatError input =>
    "Invalid duration format: \"" ++ input ++
      "\". Use formats like \"1 hour\", \"5 minutes\", \"30 seconds\", or milliseconds."
  | .unknownUnit unit =>
    "Unknown duration unit: \"" ++ unit ++ "\". Supported: ms, s, m, h, d and variations."

/-- Embedding of parseDuration: numbers pass through unchanged; strings are
matched against the duration regex, the unit is looked up case
insensitively, and the digit value is multiplied by the unit multiplier
with exact integer arithmetic. -/
def parseDuration : DurationInput → Except DurationError ℚ
  | .num q => .ok q
  | .str s =>
    match matchDuration s.data with
    | none => .error (.formatError s)
    | some (value, unit) =>
      let unitStr : String := ⟨unit⟩
      match unitMultiplier unitStr with
      | none => .error (.unknownUnit unitStr)
      | some multiplier => .ok ((natOfDigits value * multiplier : ℕ) : ℚ)

/-- Character of cs at index i, defaulting to a space (which belongs to no
class used by the timestamp pattern) past the end. -/
def charAt (cs : List Char) (i : Nat) : Char :=
  (cs.get? i).getD ' '

/-- Test that position i holds an ASCII digit. -/
def isDigitAt (cs : List Char) (i : Nat) : Bool :=
  (charAt cs i).isDigit

/-- Test that position i holds exactly character c. -/
def isCharAt (cs : List Char) (i : Nat) (c : Char) : Bool :=
  charAt cs i == c

/-- Common mandatory part of the ISO timestamp regex of the source
(positions 0 to 18): four year digits, dash, two month digits, dash, two
day digits, letter T, and the three colon separated two digit time
fields. -/
def isoCore19 (cs : List Char) : Bool :=
  isDigitAt cs 0 && isDigitAt cs 1 && isDigitAt cs 2 && isDigitAt cs 3 &&
  isCharAt cs 4 '-' && isDigitAt cs 5 && isDigitAt cs 6 && isCharAt cs 7 '-' &&
  isDigitAt cs 8 && isDigitAt cs 9 && isCharAt cs 10 'T' &&
  isDigitAt cs 11 && isDigitAt cs 12 && isCharAt cs 13 ':' &&
  isDigitAt cs 14 && isDigitAt cs 15 && isCharAt cs 16 ':' &&
  isDigitAt cs 17 && isDigitAt cs 18

/-- Shape of a 20 character match of the timestamp regex (no millisecond
fraction): the mandatory part followed by the letter Z. -/
def isoShape20 (cs : List Char) : Bool :=
  cs.length == 20 && isoCore19 cs && isCharAt cs 19 'Z'

/-- Shape of a 24 character match of the timestamp regex (with millisecond
fraction): the mandatory part, a dot, three fraction digits and the
letter Z. -/
def isoShape24 (cs : List Char) : Bool :=
  cs.length == 24 && isoCore19 cs && isCharAt cs 19 '.' &&
  isDigitAt cs 20 && isDigitAt cs 21 && isDigitAt cs 22 && isCharAt cs 23 'Z'

/-- Gregorian leap year test. -/
def isLeapYear (y : Int) : Bool :=
  (y % 4 == 0 && y % 100 != 0) || y % 400 == 0

/-- Number of days of month m (1 to 12) of year y. -/
def daysInMonth (y : Int) (m : Nat) : Nat :=
  match m with
  | 1 => 31 | 2 => if isLeapYear y then 29 else 28 | 3 => 31 | 4 => 30
  | 5 => 31 | 6 => 30 | 7 => 31 | 8 => 31 | 9 => 30 | 10 => 31
  | 11 => 30 | 12 => 31
  | _ => 0

/-- Days since the Unix epoch of the civil date (y, m, d), month 1 to 12,
by the standard era based conversion (floor division on the shifted
year). -/
def daysFromCivil (y : Int) (m d : Nat) : Int :=
  let yAdj : Int := y - (if m ≤ 2 then 1 else 0)
  let era : Int := yAdj.fdiv 400
  let yoe : Nat := (yAdj - era * 400).toNat
  let mp : Nat := (m + 9) % 12
  let doy : Nat := (153 * mp + 2) / 5 + d - 1
  let doe : Nat := yoe * 365 + yoe / 4 - yoe / 100 + doy
  era * 146097 + (doe : Int) - 719468

/-- Civil date (y, m, d) of a count of days since the Unix epoch, the
inverse of daysFromCivil. -/
def civilFromDays (z : Int) : Int × Nat × Nat :=
  let shifted : Int := z + 719468
  let era : Int := shifted.fdiv 146097
  let doe : Nat := (shifted - era * 146097).toNat
  let yoe : Nat := (doe - doe / 1460 + doe / 36524 - doe / 146096) / 365
  let doy : Nat := doe - (365 * yoe + yoe / 4 - yoe / 100)
  let mp : Nat := (5 * doy + 2) / 153
  let d : Nat := doy - (153 * mp + 2) / 5 + 1
  let m : Nat := if mp < 10 then mp + 3 else mp - 9
  ((yoe : Int) + era * 400 + (if m ≤ 2 then 1 else 0), m, d)

/-- Validity of the parsed date and time fields under the ECMAScript date
time string format as implemented by the engines the source runs on: the
month must exist, the day must exist in that month (leap aware), and the
time is either an ordinary time of day or the special 24:00:00.000 end of
day form. -/
def jsValidFields (y : Nat) (mo d h mi s ms : Nat) : Bool :=
  1 ≤ mo && mo ≤ 12 && 1 ≤ d && d ≤ daysInMonth (y : Int) mo &&
  ((h ≤ 23 && mi ≤ 59 && s ≤ 59) || (h == 24 && mi == 0 && s == 0 && ms == 0))

/-- Epoch milliseconds of the given civil date and time fields (UTC, exact
integer arithmetic, no timezone conversion). -/
def epochOfFields (y : Nat) (mo d h mi s ms : Nat) : Int :=
  daysFromCivil (y : Int) mo d * 86400000 +
    ((h * 3600000 + mi * 60000 + s * 1000 + ms : Nat) : Int)

/-- Embedding of new Date(s).getTime() on a string of the timestamp
pattern: reads the digit fields, validates them, and produces epoch
milliseconds; returns none for an invalid date (NaN time value). -/
def parseISOChars (cs : List Char) : Option Int :=
  if isoShape24 cs || isoShape20 cs then
    let y := natOfDigits (cs.take 4)
    let mo := natOfDigits ((cs.drop 5).take 2)
    let d := natOfDigits ((cs.drop 8).take 2)
    let h := natOfDigits ((cs.drop 11).take 2)
    let mi := natOfDigits ((cs.drop 14).take 2)
    let s := natOfDigits ((cs.drop 17).take 2)
    let ms := if cs.length == 24 then natOfDigits ((cs.drop 20).take 3) else 0
    if jsValidFields y mo d h mi s ms then some (epochOfFields y mo d h mi s ms)
    else none
  else none

/-- Decimal digit character for n between 0 and 9. -/
def digitChar (n : Nat) : Char :=
  Char.ofNat (48 + n % 10)

/-- Two digit zero padded decimal rendering. -/
def pad2 (n : Nat) : List Char :=
  [digitChar (n / 10), digitChar n]

/-- Three digit zero padded decimal rendering. -/
def pad3 (n : Nat) : List Char :=
  [digitChar (n / 100), digitChar (n / 10), digitChar n]

/-- Four digit zero padded decimal rendering. -/
def pad4 (n : Nat) : List Char :=
  [digitChar (n / 1000), digitChar (n / 100), digitChar (n / 10), digitChar n]

/-- Six digit zero padded decimal rendering (expanded year format). -/
def pad6 (n : Nat) : List Char :=
  [digitChar (n / 100000), digitChar (n / 10000), digitChar (n / 1000),
   digitChar (n / 100), digitChar (n / 10), digitChar n]

/-- Year field of toISOString: four digits for years 0 to 9999, otherwise
the expanded sign plus six digit form. -/
def isoYearChars (y : Int) : List Char :=
  if 0 ≤ y ∧ y ≤ 9999 then pad4 y.toNat
  else if 9999 < y then '+' :: pad6 y.toNat
  else '-' :: pad6 (-y).toNat

/-- Embedding of Date.prototype.toISOString on a finite time value: always
renders the UTC form with exactly three millisecond fraction digits. -/
def toIsoChars (t : Int) : List Char :=
  let day : Int := t.fdiv 86400000
  let msOfDay : Nat := (t - day * 86400000).toNat
  let ymd := civilFromDays day
  let h := msOfDay / 3600000
  let mi := msOfDay % 3600000 / 60000
  let s := msOfDay % 60000 / 1000
  let ms := msOfDay % 1000
  isoYearChars ymd.1 ++ '-' :: pad2 ymd.2.1 ++ '-' :: pad2 ymd.2.2 ++
    'T' :: pad2 h ++ ':' :: pad2 mi ++ ':' :: pad2 s ++ '.' :: pad3 ms ++ ['Z']

/-- Largest representable absolute time value of a JavaScript Date
(8.64e15 milliseconds); new Date(t) outside this range is an invalid
date. -/
def maxDateMs : Nat := 8640000000000000

/-- Embedding of the regex replacement callback of the source on one
matched substring: new Date(match), add the delta, and render with
toISOString.  An invalid parsed date, or a shifted value outside the Date
range, makes toISOString throw a RangeError, modelled as an error. -/
def shiftTs (m : List Char) (delta : Int) : Except Unit (List Char) :=
  match parseISOChars m with
  | none => .error ()
  | some t =>
    let shifted := t + delta
    if shifted.natAbs ≤ maxDateMs then .ok (toIsoChars shifted) else .error ()

/-- One attempt of the unanchored timestamp regex at the current position:
the engine first tries the optional millisecond group (24 character form)
and otherwise the bare form (20 characters); on success it returns the
matched characters and the rest of the input. -/
def tryTs (cs : List Char) : Option (List Char × List Char) :=
  if isoShape24 (cs.take 24) then some (cs.take 24, cs.drop 24)
  else if isoShape20 (cs.take 20) then some (cs.take 20, cs.drop 20)
  else none

/-- Embedding of body.replace with the global timestamp regex: scan left
to right, replace each leftmost nonoverlapping match through shiftTs, and
copy every other character; a throwing replacement aborts the whole call.
The fuel argument only forces structural termination: every step consumes
at least one input character, so any fuel above the input length is
enough and the fuel bound is never hit by replaceIsoTimestamps. -/
def replaceIsoFuel (delta : Int) : Nat → List Char → Except Unit (List Char)
  | 0, _ => .error ()
  | fuel + 1, cs =>
    match tryTs cs with
    | some (m, rest) =>
      match shiftTs m delta with
      | .error e => .error e
      | .ok rep =>
        match replaceIsoFuel delta fuel rest with
        | .error e => .error e
        | .ok tail => .ok (rep ++ tail)
    | none =>
      match cs with
      | [] => .ok []
      | c :: cs2 =>
        match replaceIsoFuel delta fuel cs2 with
        | .error e => .error e
        | .ok tail => .ok (c :: tail)

/-- Embedding of the global regex replacement over a whole character list,
with enough fuel for its length. -/
def replaceIsoTimestamps (delta : Int) (cs : List Char) : Except Unit (List Char) :=
  replaceIsoFuel delta (cs.length + 1) cs

/-- JSON document values as produced by JSON.parse.  Number tokens are
kept verbatim (the transformation under verification never touches
numbers; JavaScript float re-rendering is not modelled).  Object fields
keep parse order: JSON.parse assigns properties in textual order, with a
duplicate key keeping its first position and last value (the exotic
reordering of array index like keys does not occur in the bodies of the
claims). -/
inductive Json : Type where
  | jnull
  | jbool (b : Bool)
  | jnum (raw : String)
  | jstr (s : String)
  | jarr (items : List Json)
  | jobj (fields : List (String × Json))

/-- JSON insignificant whitespace (space, tab, line feed, carriage
return). -/
def skipWs (cs : List Char) : List Char :=
  cs.dropWhile (fun c => c == ' ' || c == '\t' || c == '\n' || c == '\r')

/-- Value of one hexadecimal digit. -/
def hexVal (c : Char) : Option Nat :=
  if c.isDigit then some (c.toNat - 48)
  else if 97 ≤ c.toNat ∧ c.toNat ≤ 102 then some (c.toNat - 87)
  else if 65 ≤ c.toNat ∧ c.toNat ≤ 70 then some (c.toNat - 55)
  else none

/-- Prepend a decoded character to the content of a string parse result. -/
def jCons (c : Char) (r : Option (List Char × List Char)) : Option (List Char × List Char) :=
  r.map (fun p => (c :: p.1, p.2))

/-- Parse the body of a JSON string after its opening quote, returning the
decoded content and the input after the closing quote.  All JSON escapes
are handled, including surrogate pairs; a lone surrogate is rejected
(a Lean Char cannot hold it; no claim exercises that corner). -/
def parseJString : List Char → Option (List Char × List Char)
  | [] => none
  | '"' :: cs => some ([], cs)
  | '\\' :: '"' :: cs => jCons '"' (parseJString cs)
  | '\\' :: '\\' :: cs => jCons '\\' (parseJString cs)
  | '\\' :: '/' :: cs => jCons '/' (parseJString cs)
  | '\\' :: 'b' :: cs => jCons '\x08' (parseJString cs)
  | '\\' :: 'f' :: cs => jCons '\x0c' (parseJString cs)
  | '\\' :: 'n' :: cs => jCons '\n' (parseJString cs)
  | '\\' :: 'r' :: cs => jCons '\r' (parseJString cs)
  | '\\' :: 't' :: cs => jCons '\t' (parseJString cs)
  | '\\' :: 'u' :: h1 :: h2 :: h3 :: h4 :: cs =>
    match hexVal h1, hexVal h2, hexVal h3, hexVal h4 with
    | some a, some b, some c, some d =>
      let code := 4096 * a + 256 * b + 16 * c + d
      if code < 55296 ∨ 57343 < code then jCons (Char.ofNat code) (parseJString cs)
      else if code ≤ 56319 then
        match cs with
        | '\\' :: 'u' :: g1 :: g2 :: g3 :: g4 :: cs2 =>
          match hexVal g1, hexVal g2, hexVal g3, hexVal g4 with
          | some a2, some b2, some c2, some d2 =>
            let low := 4096 * a2 + 256 * b2 + 16 * c2 + d2
            if 56320 ≤ low ∧ low ≤ 57343 then
              jCons (Char.ofNat (65536 + (code - 55296) * 1024 + (low - 56320)))
                (parseJString cs2)
            else none
          | _, _, _, _ => none
        | _ => none
      else none
    | _, _, _, _ => none
  | '\\' :: _ => none
  | c :: cs => if c.toNat < 32 then none else jCons c (parseJString cs)

/-- Required digit run of a number exponent. -/
def expDigits (pre : List Char) (cs : List Char) : Option (List Char × List Char) :=
  let ds := cs.takeWhile Char.isDigit
  if ds.isEmpty then none else some (pre ++ ds, cs.dropWhile Char.isDigit)

/-- Optional exponent part of a JSON number token. -/
def numExp (cs : List Char) : Option (List Char × List Char) :=
  match cs with
  | 'e' :: '+' :: rest => expDigits ['e', '+'] rest
  | 'e' :: '-' :: rest => expDigits ['e', '-'] rest
  | 'e' :: rest => expDigits ['e'] rest
  | 'E' :: '+' :: rest => expDigits ['E', '+'] rest
  | 'E' :: '-' :: rest => expDigits ['E', '-'] rest
  | 'E' :: rest => expDigits ['E'] rest
  | _ => some ([], cs)

/-- Optional fraction part, then optional exponent, of a JSON number
token. -/
def numFracExp (cs : List Char) : Option (List Char × List Char) :=
  match cs with
  | '.' :: rest =>
    let ds := rest.takeWhile Char.isDigit
    if ds.isEmpty then none
    else (numExp (rest.dropWhile Char.isDigit)).map (fun p => ('.' :: (ds ++ p.1), p.2))
  | _ => numExp cs

/-- Unsigned part of a JSON number token: a bare zero or a nonzero leading
digit run, then fraction and exponent. -/
def parseNumCore : List Char → Option (List Char × List Char)
  | '0' :: rest => (numFracExp rest).map (fun p => ('0' :: p.1, p.2))
  | c :: rest =>
    if c.isDigit then
      (numFracExp (rest.dropWhile Char.isDigit)).map
        (fun p => (c :: (rest.takeWhile Char.isDigit ++ p.1), p.2))
    else none
  | [] => none

/-- JSON number token with optional leading minus sign. -/
def parseNumToken : List Char → Option (List Char × List Char)
  | '-' :: rest => (parseNumCore rest).map (fun p => ('-' :: p.1, p.2))
  | cs => parseNumCore cs

/-- Assignment of one parsed object member, matching JavaScript property
creation order: a duplicate key keeps its first position and takes the
last value. -/
def objInsert (fields : List (String × Json)) (k : String) (v : Json) :
    List (String × Json) :=
  if fields.any (fun p => p.1 == k) then
    fields.map (fun p => if p.1 == k then (k, v) else p)
  else fields ++ [(k, v)]

mutual

/-- Recursive descent embedding of JSON.parse for one value.  The fuel
argument only forces termination; every recursive call follows at least
one consumed input character, so the bound chosen by jsonParse is never
hit. -/
def parseJValue : Nat → List Char → Option (Json × List Char)
  | 0, _ => none
  | fuel + 1, cs0 =>
    match skipWs cs0 with
    | '\x7b' :: rest =>
      match skipWs rest with
      | '\x7d' :: rest2 => some (.jobj [], rest2)
      | rest2 => parseJMembers fuel rest2 []
    | '[' :: rest =>
      match skipWs rest with
      | ']' :: rest2 => some (.jarr [], rest2)
      | rest2 => parseJElements fuel rest2 []
    | '"' :: rest => (parseJString rest).map (fun p => (.jstr (String.mk p.1), p.2))
    | 't' :: 'r' :: 'u' :: 'e' :: rest => some (.jbool true, rest)
    | 'f' :: 'a' :: 'l' :: 's' :: 'e' :: rest => some (.jbool false, rest)
    | 'n' :: 'u' :: 'l' :: 'l' :: rest => some (.jnull, rest)
    | cs => (parseNumToken cs).map (fun p => (.jnum (String.mk p.1), p.2))

/-- Members of a nonempty JSON object, accumulating assignments through
objInsert. -/
def parseJMembers : Nat → List Char → List (String × Json) → Option (Json × List Char)
  | 0, _, _ => none
  | fuel + 1, cs, acc =>
    match skipWs cs with
    | '"' :: rest =>
      match parseJString rest with
      | none => none
      | some (key, r1) =>
        match skipWs r1 with
        | ':' :: r2 =>
          match parseJValue fuel r2 with
          | none => none
          | some (v, r3) =>
            let acc2 := objInsert acc (String.mk key) v
            match skipWs r3 with
            | ',' :: r4 => parseJMembers fuel r4 acc2
            | '\x7d' :: r4 => some (.jobj acc2, r4)
            | _ => none
        | _ => none
    | _ => none

/-- Elements of a nonempty JSON array. -/
def parseJElements : Nat → List Char → List Json → Option (Json × List Char)
  | 0, _, _ => none
  | fuel + 1, cs, acc =>
    match parseJValue fuel cs with
    | none => none
    | some (v, r1) =>
      match skipWs r1 with
      | ',' :: r2 => parseJElements fuel r2 (acc ++ [v])
      | ']' :: r2 => some (.jarr (acc ++ [v]), r2)
      | _ => none

end

/-- Embedding of JSON.parse: parse one value and require only whitespace
to follow; any failure is the thrown SyntaxError, caught by the source. -/
def jsonParse (s : String) : Option Json :=
  match parseJValue (2 * s.data.length + 2) s.data with
  | some (v, rest) => if skipWs rest = [] then some v else none
  | none => none

/-- Hexadecimal digit character (lowercase letters, as printed by
JSON.stringify escapes). -/
def hexDigitChar (n : Nat) : Char :=
  if n < 10 then Char.ofNat (48 + n) else Char.ofNat (87 + n % 16)

/-- Escaping of one character inside a JSON.stringify string literal. -/
def escapeJChar (c : Char) : List Char :=
  if c == '"' then ['\\', '"']
  else if c == '\\' then ['\\', '\\']
  else if c == '\x08' then ['\\', 'b']
  else if c == '\t' then ['\\', 't']
  else if c == '\n' then ['\\', 'n']
  else if c == '\x0c' then ['\\', 'f']
  else if c == '\r' then ['\\', 'r']
  else if c.toNat < 32 then
    ['\\', 'u', '0', '0', hexDigitChar (c.toNat / 16), hexDigitChar (c.toNat % 16)]
  else [c]

/-- JSON string literal for s, as printed by JSON.stringify. -/
def quoteJString (s : String) : String :=
  String.mk ('"' :: (s.data.map escapeJChar).flatten ++ ['"'])

mutual

/-- Embedding of JSON.stringify (no indentation argument, as called by the
source): compact rendering with insertion ordered object fields. -/
def jsonStringify : Json → String
  | .jnull => "null"
  | .jbool true => "true"
  | .jbool false => "false"
  | .jnum raw => raw
  | .jstr s => quoteJString s
  | .jarr items => "[" ++ stringifyItems items ++ "]"
  | .jobj fields => "\x7b" ++ stringifyFields fields ++ "\x7d"

/-- Comma separated renderings of array elements. -/
def stringifyItems : List Json → String
  | [] => ""
  | [x] => jsonStringify x
  | x :: xs => jsonStringify x ++ "," ++ stringifyItems xs

/-- Comma separated renderings of object members. -/
def stringifyFields : List (String × Json) → String
  | [] => ""
  | [(k, v)] => quoteJString k ++ ":" ++ jsonStringify v
  | (k, v) :: fs => quoteJString k ++ ":" ++ jsonStringify v ++ "," ++ stringifyFields fs

end

mutual

/-- Embedding of transformObjectTimestamps of the source: recursively
transform timestamps in a parsed document.  The exclusion check happens
only in the string branch, guarded by the truthiness of currentKey (a
currentKey equal to the empty string is falsy and never excluded); array
elements are visited with no current key; object members are visited with
their own key.  A string that matches the anchored timestamp pattern but
denotes an invalid date makes toISOString throw, modelled as an error. -/
def transformObjectTimestamps (delta : Int) (excludeKeys : List String) :
    Option String → Json → Except Unit Json
  | _, .jnull => .ok .jnull
  | currentKey, .jstr s =>
    if (match currentKey with
        | some k => decide (k ≠ "") && excludeKeys.contains k
        | none => false) then .ok (.jstr s)
    else if isoShape20 s.data || isoShape24 s.data then
      match shiftTs s.data delta with
      | .error e => .error e
      | .ok out => .ok (.jstr (String.mk out))
    else .ok (.jstr s)
  | _, .jarr items =>
    match transformJItems delta excludeKeys items with
    | .error e => .error e
    | .ok items2 => .ok (.jarr items2)
  | _, .jobj fields =>
    match transformJFields delta excludeKeys fields with
    | .error e => .error e
    | .ok fields2 => .ok (.jobj fields2)
  | _, .jbool b => .ok (.jbool b)
  | _, .jnum raw => .ok (.jnum raw)

/-- Recursion of transformObjectTimestamps over array elements (the source
maps over the array passing no current key). -/
def transformJItems (delta : Int) (excludeKeys : List String) :
    List Json → Except Unit (List Json)
  | [] => .ok []
  | x :: xs =>
    match transformObjectTimestamps delta excludeKeys none x with
    | .error e => .error e
    | .ok x2 =>
      match transformJItems delta excludeKeys xs with
      | .error e => .error e
      | .ok xs2 => .ok (x2 :: xs2)

/-- Recursion of transformObjectTimestamps over object members (the source
passes each member key as the current key of its value). -/
def transformJFields (delta : Int) (excludeKeys : List String) :
    List (String × Json) → Except Unit (List (String × Json))
  | [] => .ok []
  | (k, v) :: fs =>
    match transformObjectTimestamps delta excludeKeys (some k) v with
    | .error e => .error e
    | .ok v2 =>
      match transformJFields delta excludeKeys fs with
      | .error e => .error e
      | .ok fs2 => .ok ((k, v2) :: fs2)

end

/-- Modelled from the spec: the installed clock of @sinonjs/fake-timers
(an external dependency, not part of this repository): a current virtual
time and the queue of pending virtual timers, each a pair of a numeric id
(insertion order) and an absolute scheduled fire time. -/
structure VClock : Type where
  now : Int
  timers : List (Nat × Int)
  nextId : Nat
deriving DecidableEq, Repr

/-- Modelled from the spec: FakeTimers.install with a given base time and
shouldAdvanceTime false installs a clock frozen at the base time with no
pending timers. -/
def installedClock (base : Int) : VClock :=
  ⟨base, [], 0⟩

/-- Modelled from the spec: registering a delayed callback through the
virtualized timer surface queues it against the virtual timeline, at the
current virtual time plus the delay. -/
def vSetTimeout (c : VClock) (delay : Int) : VClock × Nat :=
  ({ c with timers := c.timers ++ [(c.nextId, c.now + delay)], nextId := c.nextId + 1 },
    c.nextId)

/-- Stable insertion into a list sorted by scheduled fire time. -/
def insertByCallAt (t : Nat × Int) : List (Nat × Int) → List (Nat × Int)
  | [] => [t]
  | h :: rest => if h.2 ≤ t.2 then h :: insertByCallAt t rest else t :: h :: rest

/-- Stable sort by scheduled fire time (fire time order, then insertion
order). -/
def sortByCallAt (l : List (Nat × Int)) : List (Nat × Int) :=
  l.foldr insertByCallAt []

/-- Modelled from the spec: clock.tickAsync(ms) moves the virtual time
forward to now plus ms and fires, in nondecreasing scheduled time order,
every queued timer whose fire time falls at or before the new time,
before the call resolves.  The result carries the ids of the fired
timers in firing order; the callbacks of the claims do not schedule
further timers, so firing is modelled as removal.  fake-timers rejects
negative tick amounts; the theorems only ever tick by nonnegative
durations. -/
def vTick (c : VClock) (ms : Int) : VClock × List Nat :=
  let target := c.now + ms
  let due := sortByCallAt (c.timers.filter (fun t => decide (t.2 ≤ target)))
  let remaining := c.timers.filter (fun t => decide (target < t.2))
  ({ c with now := target, timers := remaining }, due.map (fun t => t.1))

/-- Modelled from the spec: clock.runAllAsync() drains the whole timer
queue regardless of delay, advancing the virtual time to each fire time
along the way. -/
def vRunAll (c : VClock) : VClock × List Nat :=
  let due := sortByCallAt c.timers
  let finalNow := due.foldl (fun acc t => max acc t.2) c.now
  ({ now := finalNow, timers := [], nextId := c.nextId }, due.map (fun t => t.1))

/-- Embedding of the transformResponses configuration surface. -/
structure TransformResponsesOptions : Type where
  enabled : Option Bool := none
  excludeKeys : Option (List String) := none
deriving DecidableEq, Repr

/-- Embedding of TimeControlConfig (the toFake list selects which globals
fake-timers intercepts and is irrelevant to every claim, so it is not
modelled). -/
structure TimeControlConfig : Type where
  transformResponses : Option TransformResponsesOptions := none
deriving DecidableEq, Repr

/-- Embedding of the TimeController class state: the optional installed
clock, the base (recording) time, and the configuration. -/
structure TimeController : Type where
  clock : Option VClock := none
  baseTime : Int := 0
  config : TimeControlConfig := {}
deriving DecidableEq, Repr

/-- Embedding of TimeController.install: fails if a clock is already
installed (before any state is assigned), otherwise records the base time
and installs a fresh clock frozen at it.  The recording time argument is
the epoch millisecond value of the Date, string or number passed in. -/
def TimeController.install (tc : TimeController) (recordingTime : Int) :
    Except String TimeController :=
  if tc.clock.isSome then
    .error "TimeController already installed. Call uninstall() first."
  else
    .ok { tc with baseTime := recordingTime, clock := some (installedClock recordingTime) }

/-- Embedding of TimeController.uninstall: discards the clock (and with it
every pending virtual timer); a no-op when not installed. -/
def TimeController.uninstall (tc : TimeController) : TimeController :=
  { tc with clock := none }

/-- Embedding of TimeController.isInstalled. -/
def TimeController.isInstalled (tc : TimeController) : Bool :=
  tc.clock.isSome

/-- Embedding of TimeController.getBaseTime. -/
def TimeController.getBaseTime (tc : TimeController) : Int :=
  tc.baseTime

/-- Embedding of TimeController.getContext: throws when no clock is
installed, otherwise closes over the installed clock and the base time.
The returned pair models the context closure: now, nowMs, advance, tick,
flush and elapsed are the operations below applied to it, and the source
offers no other access point to them. -/
def TimeController.getContext (tc : TimeController) : Except String (VClock × Int) :=
  match tc.clock with
  | none => .error "TimeController not installed. Call install() first."
  | some clk => .ok (clk, tc.baseTime)

/-- Embedding of the nowMs context method (and of the time value of the
Date returned by now()). -/
def ctxNowMs (c : VClock) : Int :=
  c.now

/-- Embedding of the advance context method: parse the duration, then
tick the clock by it.  fake-timers floors a fractional millisecond
amount; every duration in the claims is an integer. -/
def ctxAdvance (c : VClock) (duration : DurationInput) :
    Except DurationError (VClock × List Nat) :=
  match parseDuration duration with
  | .error e => .error e
  | .ok q => .ok (vTick c ⌊q⌋)

/-- Embedding of the tick context method, a pure alias of advance. -/
def ctxTick (c : VClock) (duration : DurationInput) :
    Except DurationError (VClock × List Nat) :=
  ctxAdvance c duration

/-- Embedding of the flush context method. -/
def ctxFlush (c : VClock) : VClock × List Nat :=
  vRunAll c

/-- Embedding of the elapsed context method: current virtual time minus
the base time captured by getContext. -/
def ctxElapsed (c : VClock) (baseTime : Int) : Int :=
  c.now - baseTime

/-- Embedding of TimeController.transformResponseTimestamps: returns the
body unchanged when no clock is installed or transformation is disabled
or the delta is zero; otherwise, with exclusions configured, attempts the
structured JSON walk (any exception inside the try block, including a
RangeError from toISOString during the walk, falls through to the plain
substitution); and finally performs the global regex substitution, whose
own RangeError propagates to the caller (modelled as an error value). -/
def TimeController.transformResponseTimestamps (tc : TimeController) (body : String)
    (entryRecordedTime : Int) : Except Unit String :=
  match tc.clock with
  | none => .ok body
  | some clk =>
    if (match tc.config.transformResponses with
        | some tr => tr.enabled == some false
        | none => false) then .ok body
    else
      let delta := clk.now - entryRecordedTime
      let excludeKeys := match tc.config.transformResponses with
        | some tr => tr.excludeKeys.getD []
        | none => []
      if delta = 0 then .ok body
      else
        let structuredResult : Option String :=
          if excludeKeys.isEmpty then none
          else
            match jsonParse body with
            | some parsed =>
              match transformObjectTimestamps delta excludeKeys none parsed with
              | .ok transformed => some (jsonStringify transformed)
              | .error _ => none
            | none => none
        match structuredResult with
        | some out => .ok out
        | none => (replaceIsoTimestamps delta body.data).map String.mk

/-- Sequence of advance calls against one clock, recording the clock state
after each call (the values observed by now, nowMs and elapsed between the
calls). -/
def advanceAll (c : VClock) : List DurationInput → Except DurationError (List VClock)
  | [] => .ok []
  | d :: rest =>
    match ctxAdvance c d with
    | .error e => .error e
    | .ok (c2, _) =>
      match advanceAll c2 rest with
      | .error e => .error e
      | .ok tl => .ok (c2 :: tl)

theorem tryTs_some_length {cs m rest : List Char}
    (h : tryTs cs = some (m, rest)) : rest.length < cs.length := by
  unfold tryTs at h
  by_cases h24 : isoShape24 (cs.take 24) = true
  · simp [h24] at h
    have hlen : (cs.take 24).length = 24 := by
      have := h24
      unfold isoShape24 at this
      simp only [Bool.and_eq_true, beq_iff_eq] at this
      exact this.1.1.1.1.1.1
    have hcs : 24 ≤ cs.length := by
      have := List.length_take 24 cs
      omega
    have : rest = cs.drop 24 := h.2.symm
    subst this
    simp [List.length_drop]
    omega
  · simp [h24] at h
    by_cases h20 : isoShape20 (cs.take 20) = true
    · simp [h20] at h
      have hlen : (cs.take 20).length = 20 := by
        have := h20
        unfold isoShape20 at this
        simp only [Bool.and_eq_true, beq_iff_eq] at this
        exact this.1.1
      have hcs : 20 ≤ cs.length := by
        have := List.length_take 20 cs
        omega
      have : rest = cs.drop 20 := h.2.symm
      subst this
      simp [List.length_drop]
      omega
    · simp [h20] at h


/-- Result of the fueled scan does not depend on the fuel, as long as the
fuel exceeds the input length. -/
theorem replaceIsoFuel_irrel (delta : Int) :
    ∀ (n f g : Nat) (cs : List Char), cs.length ≤ n → cs.length < f → cs.length < g →
      replaceIsoFuel delta f cs = replaceIsoFuel delta g cs := by
  intro n
  induction n with
  | zero =>
    intro f g cs hn hf hg
    have hcs : cs = [] := by
      cases cs with
      | nil => rfl
      | cons c cs2 => simp at hn
    subst hcs
    obtain ⟨f2, rfl⟩ : ∃ f2, f = f2 + 1 := ⟨f - 1, by omega⟩
    obtain ⟨g2, rfl⟩ : ∃ g2, g = g2 + 1 := ⟨g - 1, by omega⟩
    have hnm : tryTs [] = none := by decide
    simp [replaceIsoFuel, hnm]
  | succ n ih =>
    intro f g cs hn hf hg
    obtain ⟨f2, rfl⟩ : ∃ f2, f = f2 + 1 := ⟨f - 1, by omega⟩
    obtain ⟨g2, rfl⟩ : ∃ g2, g = g2 + 1 := ⟨g - 1, by omega⟩
    cases hm : tryTs cs with
    | some p =>
      obtain ⟨m, rest⟩ := p
      have hlt := tryTs_some_length hm
      simp only [replaceIsoFuel, hm]
      rw [ih f2 g2 rest (by omega) (by omega) (by omega)]
    | none =>
      cases cs with
      | nil => simp [replaceIsoFuel, hm]
      | cons c cs2 =>
        simp only [replaceIsoFuel, hm]
        rw [ih f2 g2 cs2 (by simp at hn ⊢; omega) (by simp at hf ⊢; omega)
          (by simp at hg ⊢; omega)]

/-- Whitespace characters are not digits and not word characters. -/
theorem isJsSpace_not_word {c : Char} (h : isJsSpace c = true) :
    c.isDigit = false ∧ isWordChar c = false := by
  have hmem : c ∈ jsSpaceChars := by simpa [isJsSpace] using h
  fin_cases hmem <;> exact ⟨by decide, by decide⟩

/-- Leading segment extraction for takeWhile over an append whose left part
satisfies the predicate and whose right part starts by refuting it. -/
theorem takeWhile_append_all {p : Char → Bool} :
    ∀ (l1 l2 : List Char), l1.all p = true →
      (∀ c cs2, l2 = c :: cs2 → p c = false) →
      (l1 ++ l2).takeWhile p = l1 := by
  intro l1
  induction l1 with
  | nil =>
    intro l2 _ h2
    cases l2 with
    | nil => simp
    | cons c cs2 => simp [List.takeWhile_cons, h2 c cs2 rfl]
  | cons a l1 ih =>
    intro l2 h1 h2
    simp only [List.all_cons, Bool.and_eq_true] at h1
    simp [List.takeWhile_cons, h1.1, ih l2 h1.2 h2]

/-- Counterpart of takeWhile_append_all for dropWhile. -/
theorem dropWhile_append_all {p : Char → Bool} :
    ∀ (l1 l2 : List Char), l1.all p = true →
      (∀ c cs2, l2 = c :: cs2 → p c = false) →
      (l1 ++ l2).dropWhile p = l2 := by
  intro l1
  induction l1 with
  | nil =>
    intro l2 _ h2
    cases l2 with
    | nil => simp
    | cons c cs2 => simp [List.dropWhile_cons, h2 c cs2 rfl]
  | cons a l1 ih =>
    intro l2 h1 h2
    simp only [List.all_cons, Bool.and_eq_true] at h1
    simp [List.dropWhile_cons, h1.1, ih l2 h1.2 h2]

/-- Word characters are not whitespace. -/
theorem isWordChar_not_space {c : Char} (h : isWordChar c = true) : isJsSpace c = false := by
  by_contra hc
  have hsp : isJsSpace c = true := by
    cases hx : isJsSpace c with
    | false => exact absurd hx hc
    | true => rfl
  have := (isJsSpace_not_word hsp).2
  rw [this] at h
  cases h

/-- Characterization of the duration regex match on a well formed input:
a nonempty digit run, a whitespace run, and a nonempty word run (not
starting with a digit when the whitespace is empty) are captured as the
value and the unit. -/
theorem matchDuration_split (ds ws u : List Char)
    (hds : ds ≠ []) (hd : ds.all Char.isDigit = true)
    (hws : ws.all isJsSpace = true)
    (hu : u ≠ []) (huw : u.all isWordChar = true)
    (hud : ws = [] → isDigitAt u 0 = false) :
    matchDuration (ds ++ ws ++ u) = some (ds, u) := by
  have hrest : ∀ c cs2, ws ++ u = c :: cs2 → c.isDigit = false := by
    intro c cs2 heq
    cases ws with
    | nil =>
      simp only [List.nil_append] at heq
      have h0 := hud rfl
      rw [heq] at h0
      simpa [isDigitAt, charAt] using h0
    | cons w ws2 =>
      simp only [List.cons_append, List.cons.injEq] at heq
      have hw : isJsSpace w = true := by
        have := hws
        simp only [List.all_cons, Bool.and_eq_true] at this
        exact this.1
      rw [← heq.1]
      exact (isJsSpace_not_word hw).1
  have huns : ∀ c cs2, u = c :: cs2 → isJsSpace c = false := by
    intro c cs2 heq
    have hc : isWordChar c = true := by
      rw [heq] at huw
      simp only [List.all_cons, Bool.and_eq_true] at huw
      exact huw.1
    exact isWordChar_not_space hc
  have htake : (ds ++ (ws ++ u)).takeWhile Char.isDigit = ds :=
    takeWhile_append_all ds (ws ++ u) hd hrest
  obtain ⟨k, hk⟩ : ∃ k, ds.length = k + 1 := by
    cases ds with
    | nil => exact absurd rfl hds
    | cons a l => exact ⟨l.length, rfl⟩
  unfold matchDuration
  rw [List.append_assoc, htake, hk]
  unfold durBacktrack
  rw [← hk, List.take_left, List.drop_left]
  have hdrop : (ws ++ u).dropWhile isJsSpace = u :=
    dropWhile_append_all ws u hws huns
  unfold durTryAt
  simp only [hdrop]
  rw [if_pos ⟨hu, huw⟩]
  rfl

/-- C5 counterexample: parse("2x") does not fail with a format error; the
regex does match "2x" (value capture "2", unit capture "x"), so the
failure is an unknown-unit error instead. -/
theorem parseDuration_2x_is_unknown_unit :
    parseDuration (.str "2x") = .error (.unknownUnit "x")
    ∧ parseDuration (.str "2x") ≠ .error (.formatError "2x") := by
  constructor
  · decide
  · decide

/-- C5 (amended): parseDuration fails with a format error, whose message
contains the whole offending input, exactly when the duration regex does
not match; it fails with an unknown-unit error, whose message contains
the offending unit capture, when the regex matches but the unit is not
recognized.  In particular both parse("2x") and parse("5 fortnights")
fail with unknown-unit errors (unit captures "x" and "fortnights"), and
parse("abc") fails with a format error. -/
theorem parseDuration_error_kinds :
    (∀ s : String, matchDuration s.data = none →
      parseDuration (.str s) = .error (.formatError s)
      ∧ ∃ a b, durationErrorMessage (.formatError s) = a ++ s ++ b)
    ∧ (∀ (s : String) (value unit : List Char),
        matchDuration s.data = some (value, unit) →
        unitMultiplier ⟨unit⟩ = none →
        parseDuration (.str s) = .error (.unknownUnit ⟨unit⟩)
        ∧ ∃ a b, durationErrorMessage (.unknownUnit ⟨unit⟩) = a ++ String.mk unit ++ b)
    ∧ parseDuration (.str "2x") = .error (.unknownUnit "x")
    ∧ parseDuration (.str "5 fortnights") = .error (.unknownUnit "fortnights")
    ∧ parseDuration (.str "abc") = .error (.formatError "abc") := by
  refine ⟨?_, ?_, by decide, by decide, by decide⟩
  · intro s h
    constructor
    · simp [parseDuration, h]
    · exact ⟨"Invalid duration format: \"",
        "\". Use formats like \"1 hour\", \"5 minutes\", \"30 seconds\", or milliseconds.",
        rfl⟩
  · intro s value unit hm hu
    constructor
    · simp [parseDuration, hm, hu]
    · exact ⟨"Unknown duration unit: \"",
        "\". Supported: ms, s, m, h, d and variations.", rfl⟩

/-- Witness for parseDuration_error_kinds at concrete inputs. -/
theorem parseDuration_error_kinds_witness :
    parseDuration (.str "abc") = .error (.formatError "abc")
    ∧ ∃ a b, durationErrorMessage (.formatError "abc") = a ++ "abc" ++ b :=
  parseDuration_error_kinds.1 "abc" (by decide)

/-- C6: parseDuration returns numeric input unchanged (any rational,
negative or fractional included), and on a well formed string of digits,
optional whitespace and a recognized unit it returns the base ten value
of the digits times the unit multiplier, with exact integer arithmetic;
in particular parse("1 hour") is 3600000, parse("30 minutes") is 1800000
and parse(500) is 500. -/
theorem parseDuration_values :
    (∀ q : ℚ, parseDuration (.num q) = .ok q)
    ∧ (∀ (ds ws : List Char) (u : String) (m : Nat),
        ds ≠ [] → ds.all Char.isDigit = true →
        ws.all isJsSpace = true →
        u.data ≠ [] → u.data.all isWordChar = true →
        (ws = [] → isDigitAt u.data 0 = false) →
        unitMultiplier u = some m →
        parseDuration (.str (String.mk (ds ++ ws ++ u.data)))
          = .ok ((natOfDigits ds * m : ℕ) : ℚ))
    ∧ parseDuration (.str "1 hour") = .ok 3600000
    ∧ parseDuration (.str "30 minutes") = .ok 1800000
    ∧ parseDuration (.num 500) = .ok 500 := by
  refine ⟨fun q => rfl, ?_, by decide, by decide, rfl⟩
  intro ds ws u m hds hd hws hu huw hud hm
  have hmatch := matchDuration_split ds ws u.data hds hd hws hu huw hud
  have hmatch2 : matchDuration (ds ++ (ws ++ u.data)) = some (ds, u.data) := by
    rw [← List.append_assoc]
    exact hmatch
  have hdata : (String.mk (ds ++ ws ++ u.data)).data = ds ++ ws ++ u.data := rfl
  have heta : (⟨u.data⟩ : String) = u := rfl
  simp [parseDuration, hdata, hmatch, hmatch2, heta, hm]

/-- Witness for parseDuration_values at a concrete input: 42 minutes. -/
theorem parseDuration_values_witness :
    parseDuration (.str (String.mk ("42".data ++ " ".data ++ "min".data)))
      = .ok ((natOfDigits "42".data * 60000 : ℕ) : ℚ) :=
  parseDuration_values.2.1 "42".data " ".data "min" 60000 (by decide) (by decide)
    (by decide) (by decide) (by decide) (by decide) (by decide)

/-- C4: whenever the clock is installed and the computed delta (virtual
now minus the entry recording time) is exactly zero,
transformResponseTimestamps returns the original body string itself, no
matter how exclusions or the enabled flag are configured. -/
theorem transform_delta_zero_returns_body (tc : TimeController) (clk : VClock)
    (body : String) (entry : Int)
    (hclk : tc.clock = some clk) (h0 : clk.now - entry = 0) :
    tc.transformResponseTimestamps body entry = .ok body := by
  unfold TimeController.transformResponseTimestamps
  rw [hclk]
  by_cases hen : (match tc.config.transformResponses with
      | some tr => tr.enabled == some false
      | none => false) = true
  · simp [hen]
  · simp only [Bool.not_eq_true] at hen
    simp [hen, h0]

/-- Witness for transform_delta_zero_returns_body: an installed controller
with exclusions configured and zero delta returns the body unchanged. -/
theorem transform_delta_zero_returns_body_witness :
    TimeController.transformResponseTimestamps
      { clock := some ⟨1705312800000, [], 0⟩, baseTime := 1705312800000,
        config := { transformResponses := some { excludeKeys := some ["birthDate"] } } }
      "\x7b\"a\":\"2024-01-15T10:00:00.000Z\"\x7d" 1705312800000
    = .ok "\x7b\"a\":\"2024-01-15T10:00:00.000Z\"\x7d" :=
  transform_delta_zero_returns_body _ _ _ _ rfl (by decide)

/-- C9: calling install on an already installed controller fails with the
descriptive re-install error.  The throw happens before any assignment,
so the controller state (base time and installed clock) is untouched by
the failed call, which the pure error result of this embedding reflects. -/
theorem install_twice_fails (tc : TimeController) (t : Int)
    (h : tc.clock.isSome = true) :
    tc.install t = .error "TimeController already installed. Call uninstall() first." := by
  unfold TimeController.install
  rw [if_pos h]

/-- Witness for install_twice_fails on a concrete installed controller. -/
theorem install_twice_fails_witness :
    TimeController.install
      { clock := some ⟨42, [], 0⟩, baseTime := 42, config := {} } 99
    = .error "TimeController already installed. Call uninstall() first." :=
  install_twice_fails _ 99 (by decide)

/-- C10: getContext, the only access point to the now, nowMs, advance,
tick, flush and elapsed operations, throws with the exact message below
when the controller is uninstalled, rather than falling back to real
time. -/
theorem getContext_uninstalled_throws (tc : TimeController) (h : tc.clock = none) :
    tc.getContext = .error "TimeController not installed. Call install() first." := by
  unfold TimeController.getContext
  rw [h]

/-- Witness for getContext_uninstalled_throws on the default (uninstalled)
controller. -/
theorem getContext_uninstalled_throws_witness :
    TimeController.getContext {} =
      .error "TimeController not installed. Call install() first." :=
  getContext_uninstalled_throws {} rfl

/-- Success of the semantic timestamp parse implies the anchored pattern
shape. -/
theorem parseISOChars_shape {cs : List Char} {t : Int}
    (h : parseISOChars cs = some t) : (isoShape24 cs || isoShape20 cs) = true := by
  unfold parseISOChars at h
  by_cases hsh : (isoShape24 cs || isoShape20 cs) = true
  · exact hsh
  · simp [hsh] at h

/-- C2 counterexample: with excludeKeys birthDate and a nonzero delta, a
body whose excluded key holds an array is not left untouched: the
timestamp inside the array is rewritten, because the source checks the
exclusion list only for string values. -/
theorem transform_excluded_array_rewritten :
    TimeController.transformResponseTimestamps
      { clock := some ⟨1705312801000, [], 0⟩, baseTime := 1705312800000,
        config := { transformResponses := some { excludeKeys := some ["birthDate"] } } }
      "\x7b\"birthDate\":[\"2024-01-15T10:00:00.000Z\"]\x7d" 1705312800000
    = .ok "\x7b\"birthDate\":[\"2024-01-15T10:00:01.000Z\"]\x7d"
    ∧ ("\x7b\"birthDate\":[\"2024-01-15T10:00:01.000Z\"]\x7d" : String)
      ≠ "\x7b\"birthDate\":[\"2024-01-15T10:00:00.000Z\"]\x7d" := by
  constructor
  · decide
  · decide

/-- C2 (amended): during the structured walk, an object entry whose key is
in the exclusion set (and nonempty, since an empty current key is falsy)
keeps a string value untouched; the exclusion does not cover container
values, into which the walk still recurses.  Every string value whose key
is not excluded (or that sits in an array, with no current key) and that
matches the timestamp pattern and denotes a valid instant is replaced by
the delta adjusted instant in canonical form.  The concrete example of
the claim holds: with excludeKeys birthDate, delta one hour, the
birthDate timestamp is kept and the createdAt timestamp is shifted. -/
theorem transform_exclusions_respected :
    (∀ (delta : Int) (excl : List String) (k : String) (s : String),
      k ≠ "" → excl.contains k = true →
      transformObjectTimestamps delta excl (some k) (.jstr s) = .ok (.jstr s))
    ∧ (∀ (delta : Int) (excl : List String) (ck : Option String) (s : String) (t : Int),
        (∀ k, ck = some k → k = "" ∨ excl.contains k = false) →
        parseISOChars s.data = some t →
        (t + delta).natAbs ≤ maxDateMs →
        transformObjectTimestamps delta excl ck (.jstr s)
          = .ok (.jstr (String.mk (toIsoChars (t + delta)))))
    ∧ TimeController.transformResponseTimestamps
        { clock := some ⟨1705316400000, [], 0⟩, baseTime := 1705312800000,
          config := { transformResponses := some { excludeKeys := some ["birthDate"] } } }
        "\x7b\"birthDate\":\"2024-01-15T10:00:00.000Z\",\"createdAt\":\"2024-01-15T10:00:00.000Z\"\x7d"
        1705312800000
      = .ok "\x7b\"birthDate\":\"2024-01-15T10:00:00.000Z\",\"createdAt\":\"2024-01-15T11:00:00.000Z\"\x7d" := by
  refine ⟨?_, ?_, by decide⟩
  · intro delta excl k s hk hmem
    have hmem2 : k ∈ excl := by simpa using hmem
    simp [transformObjectTimestamps, hk, hmem2]
  · intro delta excl ck s t hck hts hrange
    have hshape : (isoShape20 s.data || isoShape24 s.data) = true := by
      have := parseISOChars_shape hts
      rw [Bool.or_comm] at this
      exact this
    have hshift : shiftTs s.data delta = .ok (toIsoChars (t + delta)) := by
      simp [shiftTs, hts, hrange]
    cases ck with
    | none => simp [transformObjectTimestamps, hshape, hshift]
    | some k =>
      rcases hck k rfl with hk | hk
      · subst hk
        simp [transformObjectTimestamps, hshape, hshift]
      · have hk2 : k ∉ excl := by simpa using hk
        simp [transformObjectTimestamps, hshape, hshift, hk2]

/-- Witness for transform_exclusions_respected: an excluded key keeps its
string value, and a non excluded timestamp string is shifted. -/
theorem transform_exclusions_respected_witness :
    transformObjectTimestamps 1000 ["birthDate"] (some "birthDate")
      (.jstr "2024-01-15T10:00:00.000Z") = .ok (.jstr "2024-01-15T10:00:00.000Z")
    ∧ transformObjectTimestamps 1000 ["birthDate"] (some "createdAt")
      (.jstr "2024-01-15T10:00:00.000Z")
      = .ok (.jstr (String.mk (toIsoChars (1705312800000 + 1000)))) :=
  ⟨transform_exclusions_respected.1 1000 ["birthDate"] "birthDate"
      "2024-01-15T10:00:00.000Z" (by decide) (by decide),
    transform_exclusions_respected.2.1 1000 ["birthDate"] (some "createdAt")
      "2024-01-15T10:00:00.000Z" 1705312800000
      (by intro k hk; cases hk; right; decide) (by decide) (by decide)⟩

/-- C3: with the controller installed at any base time, a callback
scheduled for 5000 milliseconds through the virtualized timer surface is
fired exactly once (the fired list is exactly the ids list with that one
timer) by advance("5 seconds"), by the time the call resolves; and
advance("4 seconds") fires nothing, leaving the timer queued. -/
theorem advance_fires_due_timer (base : Int) :
    ctxAdvance ((vSetTimeout (installedClock base) 5000).1) (.str "5 seconds")
      = .ok (⟨base + 5000, [], 1⟩, [0])
    ∧ ctxAdvance ((vSetTimeout (installedClock base) 5000).1) (.str "4 seconds")
      = .ok (⟨base + 4000, [(0, base + 5000)], 1⟩, []) := by
  have h5 : parseDuration (.str "5 seconds") = .ok ((5000 : ℤ) : ℚ) := by decide
  have h4 : parseDuration (.str "4 seconds") = .ok ((4000 : ℤ) : ℚ) := by decide
  have hf5 : (⌊((5000 : ℤ) : ℚ)⌋ : ℤ) = 5000 := Int.floor_intCast 5000
  have hf4 : (⌊((4000 : ℤ) : ℚ)⌋ : ℤ) = 4000 := Int.floor_intCast 4000
  have hd1 : decide (base + 5000 ≤ base + 5000) = true := decide_eq_true (by omega)
  have hd2 : decide (base + 5000 < base + 5000) = false := decide_eq_false (by omega)
  have hd3 : decide (base + 5000 ≤ base + 4000) = false := decide_eq_false (by omega)
  have hd4 : decide (base + 4000 < base + 5000) = true := decide_eq_true (by omega)
  constructor
  · simp [ctxAdvance, h5, hf5, vTick, vSetTimeout, installedClock, sortByCallAt,
      insertByCallAt, List.filter, hd1, hd2]
  · simp [ctxAdvance, h4, hf4, vTick, vSetTimeout, installedClock, sortByCallAt,
      insertByCallAt, List.filter, hd3, hd4]

/-- Advancing a clock through any sequence of parsed nonnegative integer
durations succeeds, keeps the virtual time nondecreasing, never drops
below the starting time, and lands exactly at the start plus the sum. -/
theorem advanceAll_ok (ds : List DurationInput) (ns : List ℕ)
    (hp : List.Forall₂ (fun d n => parseDuration d = .ok ((n : ℕ) : ℚ)) ds ns) :
    ∀ c : VClock, ∃ trace, advanceAll c ds = .ok trace ∧
      List.Chain' (fun a b => ctxNowMs a ≤ ctxNowMs b) (c :: trace) ∧
      (∀ x ∈ trace, c.now ≤ x.now) ∧
      (trace.getLastD c).now = c.now + (ns.sum : ℤ) := by
  induction hp with
  | nil =>
    intro c
    exact ⟨[], rfl, List.chain'_singleton c, by simp, by simp⟩
  | cons hdn htl ih =>
    intro c
    rename_i d n ds2 ns2
    have hadv : ctxAdvance c d = .ok (vTick c ((n : ℕ) : ℤ)) := by
      simp [ctxAdvance, hdn, Int.floor_natCast]
    obtain ⟨trace2, h1, h2, h3, h4⟩ := ih (vTick c ((n : ℕ) : ℤ)).1
    have hnow : ((vTick c ((n : ℕ) : ℤ)).1).now = c.now + (n : ℤ) := rfl
    refine ⟨(vTick c ((n : ℕ) : ℤ)).1 :: trace2, ?_, ?_, ?_, ?_⟩
    · simp [advanceAll, hadv, h1]
    · rw [List.chain'_cons]
      refine ⟨?_, h2⟩
      simp only [ctxNowMs, hnow]
      omega
    · intro x hx
      rcases List.mem_cons.mp hx with hx | hx
      · rw [hx, hnow]; omega
      · have := h3 x hx
        rw [hnow] at this
        omega
    · rw [List.getLastD_cons, h4, hnow]
      push_cast [List.sum_cons]
      ring

/-- C7: after install at any base time, any sequence of advance calls
whose durations parse to nonnegative integer millisecond values succeeds;
along it nowMs is nondecreasing, the virtual time never drops below the
base time (elapsed stays nonnegative), and the final elapsed value equals
the sum of the advanced durations. -/
theorem clock_monotonic_elapsed_sum (base : Int) (ds : List DurationInput) (ns : List ℕ)
    (hp : List.Forall₂ (fun d n => parseDuration d = .ok ((n : ℕ) : ℚ)) ds ns) :
    ∃ trace, advanceAll (installedClock base) ds = .ok trace ∧
      List.Chain' (fun a b => ctxNowMs a ≤ ctxNowMs b) (installedClock base :: trace) ∧
      (∀ x ∈ trace, base ≤ ctxNowMs x ∧ 0 ≤ ctxElapsed x base) ∧
      ctxElapsed (trace.getLastD (installedClock base)) base = (ns.sum : ℤ) := by
  obtain ⟨trace, h1, h2, h3, h4⟩ := advanceAll_ok ds ns hp (installedClock base)
  refine ⟨trace, h1, h2, ?_, ?_⟩
  · intro x hx
    have hb := h3 x hx
    have : (installedClock base).now = base := rfl
    rw [this] at hb
    exact ⟨hb, by simp [ctxElapsed]; omega⟩
  · simp only [ctxElapsed, h4]
    simp [installedClock]

/-- Witness for clock_monotonic_elapsed_sum: one hour, thirty minutes and
a raw 500 milliseconds advanced from base zero. -/
theorem clock_monotonic_elapsed_sum_witness :
    ∃ trace,
      advanceAll (installedClock 0) [.str "1 hour", .str "30 minutes", .num 500]
        = .ok trace ∧
      List.Chain' (fun a b => ctxNowMs a ≤ ctxNowMs b) (installedClock 0 :: trace) ∧
      (∀ x ∈ trace, (0 : ℤ) ≤ ctxNowMs x ∧ 0 ≤ ctxElapsed x 0) ∧
      ctxElapsed (trace.getLastD (installedClock 0)) 0
        = (([3600000, 1800000, 500] : List ℕ).sum : ℤ) :=
  clock_monotonic_elapsed_sum 0 [.str "1 hour", .str "30 minutes", .num 500]
    [3600000, 1800000, 500]
    (List.Forall₂.cons (by decide)
      (List.Forall₂.cons (by decide) (List.Forall₂.cons (by decide) List.Forall₂.nil)))

/-- Length of a 24 character shape match. -/
theorem isoShape24_length {cs : List Char} (h : isoShape24 cs = true) :
    cs.length = 24 := by
  unfold isoShape24 at h
  simp only [Bool.and_eq_true, beq_iff_eq] at h
  exact h.1.1.1.1.1.1

/-- Dot position of a 24 character shape match. -/
theorem isoShape24_dot {cs : List Char} (h : isoShape24 cs = true) :
    charAt cs 19 = '.' := by
  unfold isoShape24 at h
  simp only [Bool.and_eq_true] at h
  have := h.1.1.1.1.2
  simpa [isCharAt] using this

/-- Length of a 20 character shape match. -/
theorem isoShape20_length {cs : List Char} (h : isoShape20 cs = true) :
    cs.length = 20 := by
  unfold isoShape20 at h
  simp only [Bool.and_eq_true, beq_iff_eq] at h
  exact h.1.1

/-- Final letter of a 20 character shape match. -/
theorem isoShape20_z {cs : List Char} (h : isoShape20 cs = true) :
    charAt cs 19 = 'Z' := by
  unfold isoShape20 at h
  simp only [Bool.and_eq_true] at h
  have := h.2
  simpa [isCharAt] using this

/-- Character positions inside the left part of an append are preserved. -/
theorem charAt_append_left {l1 l2 : List Char} {i : Nat} (h : i < l1.length) :
    charAt (l1 ++ l2) i = charAt l1 i := by
  simp [charAt, List.getElem?_append_left h]

/-- Character positions inside a take are preserved. -/
theorem charAt_take {l : List Char} {i n : Nat} (h : i < n) :
    charAt (l.take n) i = charAt l i := by
  simp [charAt, List.getElem?_take_of_lt h]

/-- A string of the timestamp pattern placed at the scan position is
matched exactly, whatever follows it: the 24 character form takes the
optional fraction group, and for the 20 character form the fraction group
cannot start (position 19 holds the final Z, not a dot), so the bare form
matches. -/
theorem tryTs_append_of_shape (ts rest : List Char)
    (h : (isoShape24 ts || isoShape20 ts) = true) :
    tryTs (ts ++ rest) = some (ts, rest) := by
  rcases Bool.or_eq_true_iff.mp h with h24 | h20
  · have hlen := isoShape24_length h24
    have htake : (ts ++ rest).take 24 = ts := by
      rw [← hlen]
      exact List.take_left ts rest
    have hdrop : (ts ++ rest).drop 24 = rest := by
      rw [← hlen]
      exact List.drop_left ts rest
    simp [tryTs, htake, hdrop, h24]
  · have hlen := isoShape20_length h20
    have hz := isoShape20_z h20
    have h24f : isoShape24 ((ts ++ rest).take 24) = false := by
      cases hx : isoShape24 ((ts ++ rest).take 24) with
      | false => rfl
      | true =>
        have hdot := isoShape24_dot hx
        rw [charAt_take (by omega), charAt_append_left (by omega), hz] at hdot
        cases hdot
    have htake : (ts ++ rest).take 20 = ts := by
      rw [← hlen]
      exact List.take_left ts rest
    have hdrop : (ts ++ rest).drop 20 = rest := by
      rw [← hlen]
      exact List.drop_left ts rest
    simp [tryTs, h24f, htake, hdrop, h20]

/-- The scan leaves a match free region unchanged. -/
theorem replaceIsoFuel_no_match (delta : Int) :
    ∀ (l : List Char) (f : Nat),
      (∀ i < l.length, tryTs (l.drop i) = none) → l.length < f →
      replaceIsoFuel delta f l = .ok l := by
  intro l
  induction l with
  | nil =>
    intro f _ hf
    obtain ⟨f2, rfl⟩ : ∃ f2, f = f2 + 1 := ⟨f - 1, by omega⟩
    have hnm : tryTs ([] : List Char) = none := by decide
    simp [replaceIsoFuel, hnm]
  | cons c l2 ih =>
    intro f h hf
    obtain ⟨f2, rfl⟩ : ∃ f2, f = f2 + 1 := ⟨f - 1, by omega⟩
    have h0 : tryTs (c :: l2) = none := by simpa using h 0 (by simp)
    have hrec : replaceIsoFuel delta f2 l2 = .ok l2 := by
      refine ih f2 (fun i hi => ?_) (by simp at hf; omega)
      simpa using h (i + 1) (by simp; omega)
    simp [replaceIsoFuel, h0, hrec]

/-- One scan step over a position with no match copies the character. -/
theorem replaceIsoFuel_cons_no_match (delta : Int) (c : Char) (cs2 : List Char) (f : Nat)
    (h0 : tryTs (c :: cs2) = none) :
    replaceIsoFuel delta (f + 1) (c :: cs2)
      = (replaceIsoFuel delta f cs2).map (fun tail => c :: tail) := by
  simp only [replaceIsoFuel, h0]
  cases replaceIsoFuel delta f cs2 <;> simp [Except.map]

/-- The scan over an append whose left part offers no match position
reduces to the scan of the right part, with the left part copied. -/
theorem replaceIsoFuel_append_no_match (delta : Int) :
    ∀ (pre rest : List Char) (f : Nat),
      (∀ i < pre.length, tryTs ((pre ++ rest).drop i) = none) →
      (pre ++ rest).length < f →
      replaceIsoFuel delta f (pre ++ rest)
        = (replaceIsoFuel delta (rest.length + 1) rest).map (fun tail => pre ++ tail) := by
  intro pre
  induction pre with
  | nil =>
    intro rest f _ hf
    rw [List.nil_append] at hf ⊢
    rw [replaceIsoFuel_irrel delta rest.length f (rest.length + 1) rest le_rfl hf (by omega)]
    cases replaceIsoFuel delta (rest.length + 1) rest <;> simp [Except.map]
  | cons c pre2 ih =>
    intro rest f h hf
    obtain ⟨f2, rfl⟩ : ∃ f2, f = f2 + 1 := ⟨f - 1, by omega⟩
    have h0 : tryTs (c :: (pre2 ++ rest)) = none := by simpa using h 0 (by simp)
    have hrec := ih rest f2 (fun i hi => by simpa using h (i + 1) (by simp; omega))
      (by simp at hf ⊢; omega)
    rw [List.cons_append, replaceIsoFuel_cons_no_match delta c (pre2 ++ rest) f2 h0, hrec]
    cases replaceIsoFuel delta (rest.length + 1) rest <;> simp [Except.map]

/-- Global substitution on a body consisting of a match free part, one
timestamp of the pattern denoting a valid instant, and a match free tail:
exactly that timestamp is replaced by the canonical rendering of its
delta shifted instant. -/
theorem replaceIso_concat (delta t : Int) (ts pre post : List Char)
    (hts : parseISOChars ts = some t)
    (hrange : (t + delta).natAbs ≤ maxDateMs)
    (hpre : ∀ i < pre.length, tryTs ((pre ++ ts ++ post).drop i) = none)
    (hpost : ∀ i < post.length, tryTs (post.drop i) = none) :
    replaceIsoTimestamps delta (pre ++ ts ++ post)
      = .ok (pre ++ toIsoChars (t + delta) ++ post) := by
  have hshape := parseISOChars_shape hts
  have hts_len : ts.length = 24 ∨ ts.length = 20 := by
    rcases Bool.or_eq_true_iff.mp hshape with h | h
    · exact Or.inl (isoShape24_length h)
    · exact Or.inr (isoShape20_length h)
  have htry : tryTs (ts ++ post) = some (ts, post) := tryTs_append_of_shape ts post hshape
  have hshift : shiftTs ts delta = .ok (toIsoChars (t + delta)) := by
    simp [shiftTs, hts, hrange]
  have hpostrun : replaceIsoFuel delta (ts.length + post.length) post = .ok post := by
    refine replaceIsoFuel_no_match delta post (ts.length + post.length) hpost ?_
    omega
  have hmid : replaceIsoFuel delta ((ts ++ post).length + 1) (ts ++ post)
      = .ok (toIsoChars (t + delta) ++ post) := by
    simp [replaceIsoFuel, htry, hshift, hpostrun]
  unfold replaceIsoTimestamps
  have hpre2 : ∀ i < pre.length, tryTs ((pre ++ (ts ++ post)).drop i) = none := by
    intro i hi
    have := hpre i hi
    rwa [List.append_assoc] at this
  rw [List.append_assoc]
  rw [replaceIsoFuel_append_no_match delta pre (ts ++ post) _ hpre2 (by omega)]
  rw [hmid]
  simp [Except.map, List.append_assoc]

/-- C1: starting from a fresh controller, install at instant T (the
instant denoted by a timestamp string of the pattern), advance by a
duration parsing to a nonnegative integer D, and rewrite a body that
contains that timestamp string (surrounded by match free text) against
capture time T: install and advance succeed, and the rewritten body
carries exactly the canonical UTC rendering of the instant T plus D
(the unchanged original string, denoting T itself, when D is zero) —
integer millisecond arithmetic with no timezone conversion. -/
theorem transform_shifts_timestamp_by_delta
    (t d : Int) (dur : DurationInput) (ts pre post : List Char)
    (hts : parseISOChars ts = some t)
    (hdur : parseDuration dur = .ok ((d : ℤ) : ℚ))
    (hd0 : 0 ≤ d)
    (hrange : (t + d).natAbs ≤ maxDateMs)
    (hpre : ∀ i < pre.length, tryTs ((pre ++ ts ++ post).drop i) = none)
    (hpost : ∀ i < post.length, tryTs (post.drop i) = none) :
    TimeController.install {} t
      = .ok { clock := some (installedClock t), baseTime := t, config := {} }
    ∧ ctxAdvance (installedClock t) dur = .ok (⟨t + d, [], 0⟩, [])
    ∧ TimeController.transformResponseTimestamps
        { clock := some ⟨t + d, [], 0⟩, baseTime := t, config := {} }
        (String.mk (pre ++ ts ++ post)) t
      = (if d = 0 then .ok (String.mk (pre ++ ts ++ post))
         else .ok (String.mk (pre ++ toIsoChars (t + d) ++ post))) := by
  refine ⟨rfl, ?_, ?_⟩
  · simp [ctxAdvance, hdur, Int.floor_intCast, vTick, sortByCallAt, installedClock]
  · unfold TimeController.transformResponseTimestamps
    have hdelta : t + d - t = d := by ring
    by_cases hd : d = 0
    · subst hd
      simp
    · have hde : ¬ (t + d - t = 0) := by omega
      have hconc := replaceIso_concat d t ts pre post hts hrange hpre hpost
      simp only [List.append_assoc] at hconc
      have hdata : (String.mk (pre ++ ts ++ post)).data = pre ++ ts ++ post := rfl
      simp only [hdata, hdelta]
      simp [hde, hconc, hd, Except.map]

/-- Witness for transform_shifts_timestamp_by_delta: install at
2024-01-15T10:00:00.000Z, advance one hour, rewrite a JSON shaped body
containing that timestamp. -/
theorem transform_shifts_timestamp_by_delta_witness :
    TimeController.transformResponseTimestamps
      { clock := some ⟨1705316400000, [], 0⟩, baseTime := 1705312800000, config := {} }
      (String.mk ("\x7b\"ts\":\"".data ++ "2024-01-15T10:00:00.000Z".data ++ "\"\x7d".data))
      1705312800000
    = .ok (String.mk ("\x7b\"ts\":\"".data ++ toIsoChars (1705312800000 + 3600000)
        ++ "\"\x7d".data)) := by
  have h := transform_shifts_timestamp_by_delta 1705312800000 3600000 (.str "1 hour")
    "2024-01-15T10:00:00.000Z".data "\x7b\"ts\":\"".data "\"\x7d".data
    (by decide) (by decide) (by decide) (by decide) (by decide) (by decide)
  have h3 := h.2.2
  rw [if_neg (by decide : ¬ ((3600000 : ℤ) = 0))] at h3
  exact h3
